import Mathlib

/-!
# GeeRPC: option handshake and per-connection serving loop

A shallow embedding of `codec/codec/codec.go` (package `codec`) and
`codec/server.go` (package `geerpc`).

Stateful code is written in state-passing style.  A connection
(`io.ReadWriteCloser`) is a record of the byte chunks its `Read` calls will
deliver, the bytes written to it and the number of `Close` calls it received.
A codec is a private state `κ` next to the connection it wraps.  Every call the
server makes on a collaborator is also recorded, in program order, as an
`Event`, so that statements about what was (not) called and in which order can
be made about the event list.

Collaborators whose code is not part of the two source files are parameters:
the standard library JSON decoder (`Env.decodeOption`), the codec factory
`NewGobCodec`, the codec method `Write` and the server method `readRequest`.
-/

namespace GeeRPC

deriving instance DecidableEq for Except

/-! ## The connection (`io.ReadWriteCloser`) -/

/-- State of a connection: `incoming` lists the chunks that successive `Read`
calls deliver (the empty list is end of stream), `written` the bytes written so
far, `closeCalls` how often `Close` has been invoked. -/
structure Conn where
  incoming : List (List Nat)
  written : List Nat
  closeCalls : Nat
deriving DecidableEq, Repr

/-- The method `conn.Close()`. -/
def Conn.Close (c : Conn) : Conn :=
  { c with closeCalls := c.closeCalls + 1 }

/-! ## Package `codec` (codec/codec/codec.go) -/

namespace codec

/-- The struct `Header` (codec.go lines 5-9); `Seq` is a `uint64`, on which the
server performs no arithmetic. -/
structure Header where
  ServiceMethod : String
  Seq : Nat
  Error : String
deriving DecidableEq, Repr

/-- The type `Type` (codec.go line 21), a string tag. -/
abbrev Type_ := String

/-- The constant `GobType` (codec.go line 24). -/
def GobType : Type_ := "application/gob"

/-- The type `NewCodecFunc` (codec.go line 19): a factory wraps a connection
into a codec with private state `κ`; it may already use the connection. -/
abbrev NewCodecFunc (κ : Type) := Conn → κ × Conn

/-- A Go `map[Type]NewCodecFunc`: an association list whose first binding of a
key counts; a value may be the nil function (`none`). -/
abbrev FuncMap (κ : Type) := List (Type_ × Option (NewCodecFunc κ))

/-- The map expression `m[k]`: the bound value, or the zero value (nil) when the
key is absent. -/
def FuncMap.get {κ : Type} (m : FuncMap κ) (k : Type_) : Option (NewCodecFunc κ) :=
  match m with
  | [] => none
  | (k', v) :: rest => if k' = k then v else FuncMap.get rest k

/-- The keys of a map. -/
def FuncMap.keys {κ : Type} (m : FuncMap κ) : List Type_ :=
  m.map Prod.fst

/-- The map assignment `m[k] = v`. -/
def FuncMap.set {κ : Type} (m : FuncMap κ) (k : Type_) (v : Option (NewCodecFunc κ)) :
    FuncMap κ :=
  (k, v) :: m.filter (fun p => p.1 ≠ k)

/-- The package variable `NewCodeFuncMap` after `init()` has run (codec.go lines
28-33): `make` followed by the single assignment for `GobType`.  The factory
`NewGobCodec` is defined outside the two source files and is a parameter. -/
def NewCodeFuncMap {κ : Type} (NewGobCodec : NewCodecFunc κ) : FuncMap κ :=
  FuncMap.set [] GobType (some NewGobCodec)

end codec

open codec

/-! ## Package `geerpc` (codec/server.go) -/

/-- The constant `MagicNumber` (server.go line 24). -/
def MagicNumber : Int := 0x3bef5c

/-- The struct `Option` (server.go lines 27-30). -/
structure Option_ where
  MagicNumber : Int
  CodecType : Type_
deriving DecidableEq, Repr

/-- The variable `DefaultOption` (server.go lines 32-35). -/
def DefaultOption : Option_ :=
  { MagicNumber := MagicNumber, CodecType := GobType }

/-- A message body (`interface{}`): the sentinel `invalidRequest` of server.go
line 89, or some other value. -/
inductive Body where
  | invalidRequest
  | value (v : String)
deriving DecidableEq, Repr

/-- Modelled from the spec: the struct `request`, which server.go uses through
`req.h` only; section 2 item 6 describes it as a decoded Header paired with its
decoded argument value and a placeholder reply value. -/
structure request where
  h : Header
  argv : Body
  replyv : Body
deriving DecidableEq, Repr

/-- What one call of `server.readRequest(cc)` returns: the pair `(req, err)`,
either of which may be nil. -/
structure ReadResult where
  req : Option request
  err : Option String
deriving DecidableEq, Repr

/-- Calls made by the server, in program order. -/
inductive Event (κ : Type) where
  /-- The call `json.NewDecoder(conn).Decode(&opt)`, line 70. -/
  | decode
  /-- A `log.Println` or `log.Printf` call with the text it prints. -/
  | log (msg : String)
  /-- The map lookup `codec.NewCodeFuncMap[opt.CodecType]`, line 81. -/
  | lookup (t : Type_)
  /-- The factory call `f(conn)` of line 86, with the connection it is given. -/
  | newCodec (conn : Conn)
  /-- Entry into `serveCodec` with the codec it received. -/
  | serveCodec (cc : κ)
  /-- One call of `server.readRequest(cc)` with its result, line 98. -/
  | read (r : ReadResult)
  /-- The call `sending.Lock()`. -/
  | lock
  /-- The call `cc.Write(h, body)`. -/
  | write (h : Header) (body : Body)
  /-- The call `sending.Unlock()`. -/
  | unlock
  /-- The call `cc.Close()`. -/
  | codecClose
  /-- The call `conn.Close()`, deferred at line 66. -/
  | close
deriving DecidableEq

/-- The collaborators of the server that lie outside the two source files.  Of
the interface `Codec` (codec.go lines 12-17) the server code calls `Write` only,
through the reply of line 105; `ReadHeader` and `ReadBody` are for `readRequest`,
whose code is absent and which is taken as a whole; `Close` is never called. -/
structure Env (κ : Type) where
  /-- The call `json.NewDecoder(conn).Decode(&opt)`: the decoder only gets the
  read side of the connection; it returns the decoded Option or an error text,
  and what is left to read. -/
  decodeOption : List (List Nat) → Except String Option_ × List (List Nat)
  /-- The call `server.readRequest(cc)`. -/
  readRequest : κ × Conn → ReadResult × (κ × Conn)
  /-- The call `cc.Write(h, body)`, returning the error text on failure. -/
  Write : Header → Body → κ × Conn → Option String × (κ × Conn)

/-- How far an execution got. -/
inductive Status where
  /-- The function returned normally. -/
  | returned
  /-- The serving loop is still running when the fuel is used up. -/
  | serving
  /-- A run-time panic (call of a nil function). -/
  | fault
deriving DecidableEq, Repr

/-- Lower-case hexadecimal digits of a natural number. -/
def hexNat (n : Nat) : String :=
  String.mk (Nat.toDigits 16 n)

/-- The verb `%x` applied to an `int`. -/
def fmtHex (i : Int) : String :=
  if i < 0 then "-" ++ hexNat i.natAbs else hexNat i.toNat

/-- Modelled from the spec: the log record of a failed write (section 4.5: a
write failure is logged and does not abort the connection); nothing is logged
when the write succeeded. -/
def writeFailureLog {κ : Type} : Option String → List (Event κ)
  | some e => [Event.log ("rpc server: write response error: " ++ e)]
  | none => []

/-- Modelled from the spec: the method completing the statement `server.` of
server.go line 105, which the source leaves unfinished.  Sections 4.5 and 7 give
it: hold the write lock, call the codec's write operation with the header and
the shared sentinel body, release the lock right after the write returns
whether or not it failed, and log a failure. -/
def sendResponse {κ : Type} (env : Env κ) (h : Header) (body : Body) (s : κ × Conn) :
    List (Event κ) × (κ × Conn) :=
  let w := env.Write h body s
  ([Event.lock, Event.write h body, Event.unlock] ++ writeFailureLog w.1, w.2)

/-- Outcome of running the loop of `serveCodec`. -/
structure Run (κ : Type) where
  events : List (Event κ)
  state : κ × Conn
  returned : Bool
deriving DecidableEq

/-- Put the events of earlier iterations in front of a run. -/
def Run.after {κ : Type} (evs : List (Event κ)) (r : Run κ) : Run κ :=
  { r with events := evs ++ r.events }

/-- The loop of `Server.serveCodec` (server.go lines 97-107), at most `fuel`
iterations.  Each iteration calls `readRequest`; an error with a nil request
breaks out of the loop; an error with a request stores the error text in the
request's header and answers through `sendResponse`; the loop body holds
nothing else, so every other result goes straight to the next iteration. -/
def serveCodec {κ : Type} (env : Env κ) : Nat → κ × Conn → Run κ
  | 0, s => { events := [], state := s, returned := false }
  | fuel + 1, s =>
    let rd := env.readRequest s
    match rd.1.err, rd.1.req with
    | some _, none => { events := [Event.read rd.1], state := rd.2, returned := true }
    | some e, some req =>
      let h : Header := { req.h with Error := e }
      let sent := sendResponse env h Body.invalidRequest rd.2
      Run.after (Event.read rd.1 :: sent.1) (serveCodec env fuel sent.2)
    | none, _ => Run.after [Event.read rd.1] (serveCodec env fuel rd.2)

/-- Result of `ServeConn`: the calls made, the connection at the end, and how
the execution ended. -/
structure Result (κ : Type) where
  events : List (Event κ)
  conn : Conn
  status : Status
deriving DecidableEq

/-- The deferred `conn.Close()` of line 66 running when `ServeConn` leaves. -/
def leave {κ : Type} (evs : List (Event κ)) (conn : Conn) (st : Status) : Result κ :=
  { events := evs ++ [Event.close], conn := conn.Close, status := st }

/-- The method `Server.ServeConn` (server.go lines 64-87).  `reg` is the package
variable `codec.NewCodeFuncMap` at the time of the call; `fuel` bounds the
iterations of the serving loop. -/
def ServeConn {κ : Type} (env : Env κ) (reg : FuncMap κ) (fuel : Nat) (conn : Conn) :
    Result κ :=
  let d := env.decodeOption conn.incoming
  let conn1 : Conn := { conn with incoming := d.2 }
  match d.1 with
  | Except.error err =>
    leave [Event.decode, Event.log ("rpc server: options error:  " ++ err)] conn1 Status.returned
  | Except.ok opt =>
    if opt.MagicNumber ≠ MagicNumber then
      leave [Event.decode,
        Event.log ("rpc server: invalid magic number " ++ fmtHex opt.MagicNumber)]
        conn1 Status.returned
    else
      let f := reg.get opt.CodecType
      if f.isNone then
        leave [Event.decode, Event.lookup opt.CodecType,
          Event.log ("rpc server: invalid codec type " ++ opt.CodecType)] conn1 Status.returned
      else
        let pre : List (Event κ) :=
          [Event.decode, Event.lookup opt.CodecType, Event.newCodec conn1]
        match f with
        | none => leave pre conn1 Status.fault
        | some newCodec =>
          let made := newCodec conn1
          let run := serveCodec env fuel made
          if run.returned then
            leave (pre ++ Event.serveCodec made.1 :: run.events) run.state.2 Status.returned
          else
            { events := pre ++ Event.serveCodec made.1 :: run.events,
              conn := run.state.2, status := Status.serving }

/-! ## Event classes -/

/-- Entry into `serveCodec`. -/
def Event.isServeCodec {κ : Type} : Event κ → Bool
  | Event.serveCodec _ => true
  | _ => false

/-- A call of a codec factory. -/
def Event.isNewCodec {κ : Type} : Event κ → Bool
  | Event.newCodec _ => true
  | _ => false

/-- A write through the codec; the server has no other way to write on the
connection. -/
def Event.isWrite {κ : Type} : Event κ → Bool
  | Event.write _ _ => true
  | _ => false

/-- A map lookup in the codec registry. -/
def Event.isLookup {κ : Type} : Event κ → Bool
  | Event.lookup _ => true
  | _ => false

/-- A close of the connection, directly or through the codec. -/
def Event.isClose {κ : Type} : Event κ → Bool
  | Event.close => true
  | Event.codecClose => true
  | _ => false

/-- A call of `readRequest`. -/
def Event.isRead {κ : Type} : Event κ → Bool
  | Event.read _ => true
  | _ => false

/-- A header-read failure: `readRequest` returned an error and a nil request. -/
def ReadResult.headerFailure (r : ReadResult) : Bool :=
  r.err.isSome && r.req.isNone

/-- A `readRequest` call that ended in a header-read failure. -/
def Event.isFailedRead {κ : Type} : Event κ → Bool
  | Event.read r => r.headerFailure
  | _ => false

/-- Kinds of events the serving loop produces. -/
def Event.isLoopEvent {κ : Type} : Event κ → Bool
  | Event.read _ => true
  | Event.lock => true
  | Event.write _ _ => true
  | Event.unlock => true
  | Event.log _ => true
  | _ => false

/-- Events of an accepted handshake up to and including the entry into
`serveCodec`. -/
def acceptedPrefix {κ : Type} (opt : Option_) (conn1 : Conn) (cc : κ) : List (Event κ) :=
  [Event.decode, Event.lookup opt.CodecType, Event.newCodec conn1, Event.serveCodec cc]

/-- The lock discipline on an event list: every `lock` is followed at once by one
`write` and then `unlock`, and no `write` or `unlock` occurs elsewhere. -/
def wellLocked {κ : Type} : List (Event κ) → Bool
  | [] => true
  | Event.lock :: Event.write _ _ :: Event.unlock :: rest => wellLocked rest
  | Event.lock :: _ => false
  | Event.write _ _ :: _ => false
  | Event.unlock :: _ => false
  | _ :: rest => wellLocked rest

/-! ## The standard library decoder behind `json.NewDecoder(conn).Decode(&opt)`

The decoder of package `encoding/json` is not part of the repository.  Its read
path is modelled here after the library source (`Decoder.Decode`,
`Decoder.readValue`, `Decoder.refill`): the decoder owns a buffer, fills it by
calling `Read` on the connection with all the free room of the buffer (at least
512 bytes), and scans the buffer for the end of one value.  Bytes that were read
into the buffer behind the value stay in the decoder.  The scanner and the
unmarshaller are parameters. -/

/-- The method `Read(p)` of a connection for `len(p) = n`: at most `n` bytes of
the next chunk; `none` is `io.EOF`. -/
def Conn.Read (n : Nat) : List (List Nat) → Option (List Nat) × List (List Nat)
  | [] => (none, [])
  | c :: rest =>
    if c.length ≤ n then (some c, rest) else (some (c.take n), c.drop n :: rest)

/-- Verdict of the JSON scanner on the buffered bytes. -/
inductive Scan where
  /-- No complete value yet. -/
  | more
  /-- The first value ends at this offset of the buffer. -/
  | done (n : Nat)
  /-- The bytes are not JSON. -/
  | invalid (msg : String)
deriving DecidableEq, Repr

/-- The JSON scanner and unmarshaller of the standard library. -/
structure JSON where
  /-- Scan the buffered bytes, knowing whether end of stream was reached. -/
  scan : List Nat → Bool → Scan
  /-- Decode the bytes of one value into an Option. -/
  unmarshal : List Nat → Except String Option_

/-- JSON white space. -/
def isSpaceByte (c : Nat) : Bool :=
  c = 32 || c = 9 || c = 10 || c = 13

/-- The loop of `Decoder.readValue` with `Decoder.refill`: scan the buffer; when
the value is not complete and the last read did not fail, grow the buffer if
fewer than 512 bytes are free (`2*cap + 512`) and read into all the free room.
The number 512 is the `minRead` of the library source this follows; releases of
the library differ in how much room the first read offers, so for chunks longer
than the smallest such room the bytes left on the connection depend on the
release. -/
def readValue (lib : JSON) :
    Nat → List Nat → Nat → Bool → List (List Nat) → Except String Nat × List Nat × List (List Nat)
  | 0, buf, _, _, rd => (Except.error "unexpected EOF", buf, rd)
  | fuel + 1, buf, cap, eof, rd =>
    match lib.scan buf eof with
    | Scan.done n => (Except.ok n, buf, rd)
    | Scan.invalid msg => (Except.error msg, buf, rd)
    | Scan.more =>
      if eof then
        (Except.error (if buf.all isSpaceByte then "EOF" else "unexpected EOF"), buf, rd)
      else
        let cap1 := if cap - buf.length < 512 then 2 * cap + 512 else cap
        let got := Conn.Read (cap1 - buf.length) rd
        match got.1 with
        | none => readValue lib fuel buf cap1 true got.2
        | some c => readValue lib fuel (buf ++ c) cap1 false got.2

/-- The first `Decode` of a fresh decoder created on the read side of a
connection: read one value, unmarshal its bytes.  The decoder is dropped
afterwards, with whatever its buffer holds behind the value. -/
def Decode (lib : JSON) (rd : List (List Nat)) : Except String Option_ × List (List Nat) :=
  let r := readValue lib (rd.length + (rd.map List.length).sum + 2) [] 0 false rd
  match r.1 with
  | Except.error msg => (Except.error msg, r.2.2)
  | Except.ok n => (lib.unmarshal (r.2.1.take n), r.2.2)

/-! ### A JSON library for flat objects

Enough of JSON to evaluate `Decode` on what `json.NewEncoder(conn).Encode` writes
for an `Option`: one object without white space inside, whose members are
strings without escapes and integers, with the member names spelled as the field
names.  It is narrower than the library, which also takes white space between
tokens, member names in any letter case, unknown members of every type, and
rejects integers outside the range of `int`. -/

/-- Offset behind the brace closing the first object, tracking nesting depth and
strings. -/
def scanObject : Nat → Bool → Bool → Nat → List Nat → Scan
  | _, _, _, _, [] => Scan.more
  | d, true, true, p, _ :: cs => scanObject d true false (p + 1) cs
  | d, true, false, p, c :: cs =>
    if c = 92 then scanObject d true true (p + 1) cs
    else if c = 34 then scanObject d false false (p + 1) cs
    else scanObject d true false (p + 1) cs
  | d, false, _, p, c :: cs =>
    if c = 34 then
      (if d = 0 then Scan.invalid "not an object" else scanObject d true false (p + 1) cs)
    else if c = 123 then scanObject (d + 1) false false (p + 1) cs
    else if c = 125 then
      (if d = 0 then Scan.invalid "invalid character" else
        if d = 1 then Scan.done (p + 1) else scanObject (d - 1) false false (p + 1) cs)
    else if d = 0 && !isSpaceByte c then Scan.invalid "not an object"
    else scanObject d false false (p + 1) cs

/-- A quoted string without escapes at the head of the input: its content and the
input behind it. -/
def takeString : List Nat → Option (List Nat × List Nat)
  | 34 :: cs =>
    match cs.dropWhile (fun c => c ≠ 34) with
    | 34 :: rest => some (cs.takeWhile (fun c => c ≠ 34), rest)
    | _ => none
  | _ => none

/-- Value of a run of decimal digits. -/
def digitsValue (ds : List Nat) : Nat :=
  ds.foldl (fun acc d => 10 * acc + (d - 48)) 0

/-- An integer at the head of the input: its value and the input behind it. -/
def takeInt (cs : List Nat) : Option (Int × List Nat) :=
  let isDigit := fun c => decide (48 ≤ c) && decide (c ≤ 57)
  match cs with
  | 45 :: ds =>
    if (ds.takeWhile isDigit).isEmpty then none
    else some (-(digitsValue (ds.takeWhile isDigit) : Int), ds.dropWhile isDigit)
  | _ =>
    if (cs.takeWhile isDigit).isEmpty then none
    else some ((digitsValue (cs.takeWhile isDigit) : Int), cs.dropWhile isDigit)

/-- Text of a byte list. -/
def bytesToString (bs : List Nat) : String :=
  String.mk (bs.map Char.ofNat)

/-- Bytes of a text (ASCII). -/
def stringToBytes (t : String) : List Nat :=
  t.toList.map Char.toNat

/-- Members of a flat object, stored into the Option fields they name; other
members are skipped. -/
def parseMembers : Nat → List Nat → Option_ → Except String Option_
  | 0, _, _ => Except.error "unexpected end of JSON input"
  | fuel + 1, cs, opt =>
    match takeString cs with
    | none => Except.error "invalid character"
    | some (key, 58 :: vs) =>
      let stored : Option (Option_ × List Nat) :=
        match takeString vs with
        | some (v, rest) =>
          if bytesToString key = "CodecType" then
            some ({ opt with CodecType := bytesToString v }, rest)
          else if bytesToString key = "MagicNumber" then none
          else some (opt, rest)
        | none =>
          match takeInt vs with
          | some (i, rest) =>
            if bytesToString key = "MagicNumber" then
              some ({ opt with MagicNumber := i }, rest)
            else if bytesToString key = "CodecType" then none
            else some (opt, rest)
          | none => none
      match stored with
      | none => Except.error "cannot unmarshal"
      | some (opt1, 44 :: rest) => parseMembers fuel rest opt1
      | some (opt1, [125]) => Except.ok opt1
      | some _ => Except.error "invalid character"
    | some _ => Except.error "invalid character"

/-- Unmarshal a flat object into a zero-valued `Option`. -/
def unmarshalOption (bs : List Nat) : Except String Option_ :=
  match bs.dropWhile isSpaceByte with
  | [123, 125] => Except.ok { MagicNumber := 0, CodecType := "" }
  | 123 :: cs => parseMembers bs.length cs { MagicNumber := 0, CodecType := "" }
  | _ => Except.error "cannot unmarshal"

/-- The JSON library for flat objects. -/
def flatJSON : JSON :=
  { scan := fun buf _ => scanObject 0 false false 0 buf
    unmarshal := unmarshalOption }

/-- What `json.NewEncoder(conn).Encode(DefaultOption)` writes, without the final
newline. -/
def defaultOptionBytes : List Nat :=
  stringToBytes "\x7b\"MagicNumber\":3927900,\"CodecType\":\"application/gob\"\x7d"

/-! ## A scripted codec

A codec whose private state is the list of results its `readRequest` calls will
return; when the script is used up the stream has ended.  It is used to run the
server on concrete inputs. -/

/-- The factory of the scripted codec. -/
def scriptFactory (script : List ReadResult) : NewCodecFunc (List ReadResult) :=
  fun conn => (script, conn)

/-- The collaborators for the scripted codec: `readRequest` pops the script,
`Write` appends the sequence number to the connection and fails on a header
without service method. -/
def scriptEnv (dec : List (List Nat) → Except String Option_ × List (List Nat)) :
    Env (List ReadResult) :=
  { decodeOption := dec
    readRequest := fun s =>
      match s.1 with
      | [] => ({ req := none, err := some "EOF" }, s)
      | r :: rest => (r, (rest, s.2))
    Write := fun h _ s =>
      (if h.ServiceMethod = "" then some "short write" else none,
        (s.1, { s.2 with written := s.2.written ++ [h.Seq] })) }

/-- A decoder that hands out a fixed outcome and consumes the first chunk. -/
def fixedDecoder (out : Except String Option_) :
    List (List Nat) → Except String Option_ × List (List Nat) :=
  fun rd => (out, rd.tail)

/-- A connection on which nothing was written or closed yet, with the given
chunks to read. -/
def Conn.fresh (chunks : List (List Nat)) : Conn :=
  { incoming := chunks, written := [], closeCalls := 0 }

/-! ## Workers answering concurrently

The source runs the Response Writer from the serving loop only.  Sections 4.5
and 5 of the spec describe it as run by one worker per request, concurrently;
that is modelled here as an interleaving of worker steps chosen by a
scheduler. -/

/-- Modelled from the spec: where a worker stands in the Response Writer (spec
4.5), which the source does not contain: before it holds the write lock, holding
it with the write not yet started, inside the codec's write operation, after the
write has returned with its outcome, and after the release. -/
inductive Phase where
  | waiting
  | holding
  | writing
  | wrote (err : Option String)
  | finished
deriving DecidableEq, Repr

/-- The phases in which the worker holds the write lock. -/
def Phase.inside : Phase → Bool
  | Phase.holding => true
  | Phase.writing => true
  | Phase.wrote _ => true
  | _ => false

/-- Modelled from the spec: a worker with the reply it has to send. -/
structure Worker where
  h : Header
  body : Body
  phase : Phase
deriving DecidableEq, Repr

/-- Modelled from the spec: a connection served by several workers: the mutex
`sending` (true when locked), the codec with its connection, the workers, and
the calls made so far with the index of the worker that made them. -/
structure Shared (κ : Type) where
  sending : Bool
  codec : κ × Conn
  workers : List Worker
  events : List (Nat × Event κ)

/-- Modelled from the spec: one step of worker `i` in the Response Writer (spec
4.5).  A waiting worker takes the lock when it is free and stays where it is
otherwise; then it calls the codec's write operation, the write returns, and the
worker releases the lock right away, whether the write succeeded or failed, and
logs a failure. -/
def Shared.step {κ : Type} (env : Env κ) (sys : Shared κ) (i : Nat) : Shared κ :=
  match sys.workers[i]? with
  | none => sys
  | some w =>
    match w.phase with
    | Phase.waiting =>
      if sys.sending then sys
      else
        { sys with
          sending := true
          workers := sys.workers.set i { w with phase := Phase.holding }
          events := sys.events ++ [(i, Event.lock)] }
    | Phase.holding =>
      { sys with
        workers := sys.workers.set i { w with phase := Phase.writing }
        events := sys.events ++ [(i, Event.write w.h w.body)] }
    | Phase.writing =>
      { sys with
        codec := (env.Write w.h w.body sys.codec).2
        workers := sys.workers.set i
          { w with phase := Phase.wrote (env.Write w.h w.body sys.codec).1 } }
    | Phase.wrote err =>
      { sys with
        sending := false
        workers := sys.workers.set i { w with phase := Phase.finished }
        events := sys.events ++ (i, Event.unlock) :: (writeFailureLog err).map (fun ev => (i, ev)) }
    | Phase.finished => sys

/-- Modelled from the spec: the steps chosen by a schedule, one worker index
after the other (spec 5: workers run concurrently, in no fixed order). -/
def Shared.run {κ : Type} (env : Env κ) (sys : Shared κ) (sched : List Nat) : Shared κ :=
  sched.foldl (Shared.step env) sys

/-- Modelled from the spec: the workers for a list of replies, none of which has
started, on a codec whose lock is free. -/
def Shared.start {κ : Type} (codec : κ × Conn) (replies : List (Header × Body)) : Shared κ :=
  { sending := false
    codec := codec
    workers := replies.map (fun r => { h := r.1, body := r.2, phase := Phase.waiting })
    events := [] }

/-- The lock is held by exactly the worker `holder`, if any. -/
def Shared.heldBy {κ : Type} (sys : Shared κ) (holder : Option Nat) : Prop :=
  sys.sending = holder.isSome ∧
  ∀ (i : Nat) (w : Worker), sys.workers[i]? = some w →
    (w.phase.inside = true ↔ holder = some i)

/-! ## Basic facts about `ServeConn` and `serveCodec` -/

section Basics

variable {κ : Type}

theorem sendResponse_events (env : Env κ) (h : Header) (body : Body) (s : κ × Conn) :
    ∀ ev ∈ (sendResponse env h body s).1, ev.isLoopEvent = true := by
  intro ev hev
  unfold sendResponse at hev
  cases hw : (env.Write h body s).1 <;> simp [hw, writeFailureLog] at hev <;>
    rcases hev with rfl | rfl | rfl | rfl <;> rfl

theorem serveCodec_break (env : Env κ) (fuel : Nat) (s : κ × Conn) (e : String)
    (herr : (env.readRequest s).1.err = some e) (hreq : (env.readRequest s).1.req = none) :
    serveCodec env (fuel + 1) s =
      { events := [Event.read (env.readRequest s).1], state := (env.readRequest s).2,
        returned := true } := by
  simp [serveCodec, herr, hreq]

theorem serveCodec_reply (env : Env κ) (fuel : Nat) (s : κ × Conn) (e : String)
    (req : request)
    (herr : (env.readRequest s).1.err = some e) (hreq : (env.readRequest s).1.req = some req) :
    serveCodec env (fuel + 1) s =
      Run.after
        (Event.read (env.readRequest s).1 ::
          (sendResponse env { req.h with Error := e } Body.invalidRequest
            (env.readRequest s).2).1)
        (serveCodec env fuel
          (sendResponse env { req.h with Error := e } Body.invalidRequest
            (env.readRequest s).2).2) := by
  simp [serveCodec, herr, hreq]

theorem serveCodec_next (env : Env κ) (fuel : Nat) (s : κ × Conn)
    (herr : (env.readRequest s).1.err = none) :
    serveCodec env (fuel + 1) s =
      Run.after [Event.read (env.readRequest s).1]
        (serveCodec env fuel (env.readRequest s).2) := by
  simp [serveCodec, herr]

theorem serveCodec_events (env : Env κ) :
    ∀ (fuel : Nat) (s : κ × Conn), ∀ ev ∈ (serveCodec env fuel s).events,
      ev.isLoopEvent = true := by
  intro fuel
  induction fuel with
  | zero => intro s ev hev; simp [serveCodec] at hev
  | succ n ih =>
    intro s ev hev
    cases herr : (env.readRequest s).1.err with
    | none =>
      rw [serveCodec_next env n s herr] at hev
      simp only [Run.after, List.cons_append, List.nil_append, List.mem_cons] at hev
      rcases hev with rfl | hev
      · rfl
      · exact ih _ ev hev
    | some e =>
      cases hreq : (env.readRequest s).1.req with
      | none =>
        rw [serveCodec_break env n s e herr hreq] at hev
        simp at hev; subst hev; rfl
      | some req =>
        rw [serveCodec_reply env n s e req herr hreq] at hev
        simp only [Run.after, List.cons_append, List.mem_cons, List.mem_append] at hev
        rcases hev with rfl | hev | hev
        · rfl
        · exact sendResponse_events env _ _ _ ev hev
        · exact ih _ ev hev

theorem ServeConn_decode_error (env : Env κ) (reg : FuncMap κ) (fuel : Nat) (conn : Conn)
    (err : String) (h : (env.decodeOption conn.incoming).1 = Except.error err) :
    ServeConn env reg fuel conn =
      leave [Event.decode, Event.log ("rpc server: options error:  " ++ err)]
        { conn with incoming := (env.decodeOption conn.incoming).2 } Status.returned := by
  simp only [ServeConn, h]

theorem ServeConn_bad_magic (env : Env κ) (reg : FuncMap κ) (fuel : Nat) (conn : Conn)
    (opt : Option_) (h : (env.decodeOption conn.incoming).1 = Except.ok opt)
    (hm : opt.MagicNumber ≠ MagicNumber) :
    ServeConn env reg fuel conn =
      leave [Event.decode,
        Event.log ("rpc server: invalid magic number " ++ fmtHex opt.MagicNumber)]
        { conn with incoming := (env.decodeOption conn.incoming).2 } Status.returned := by
  simp only [ServeConn, h, hm, ne_eq, not_false_eq_true, if_true]

theorem ServeConn_no_codec (env : Env κ) (reg : FuncMap κ) (fuel : Nat) (conn : Conn)
    (opt : Option_) (h : (env.decodeOption conn.incoming).1 = Except.ok opt)
    (hm : opt.MagicNumber = MagicNumber) (hf : reg.get opt.CodecType = none) :
    ServeConn env reg fuel conn =
      leave [Event.decode, Event.lookup opt.CodecType,
        Event.log ("rpc server: invalid codec type " ++ opt.CodecType)]
        { conn with incoming := (env.decodeOption conn.incoming).2 } Status.returned := by
  simp [ServeConn, h, hm, hf]

theorem ServeConn_accept (env : Env κ) (reg : FuncMap κ) (fuel : Nat) (conn : Conn)
    (opt : Option_) (f : NewCodecFunc κ)
    (h : (env.decodeOption conn.incoming).1 = Except.ok opt)
    (hm : opt.MagicNumber = MagicNumber) (hf : reg.get opt.CodecType = some f) :
    ServeConn env reg fuel conn =
      if (serveCodec env fuel
          (f { conn with incoming := (env.decodeOption conn.incoming).2 })).returned then
        leave (acceptedPrefix opt { conn with incoming := (env.decodeOption conn.incoming).2 }
            (f { conn with incoming := (env.decodeOption conn.incoming).2 }).1 ++
          (serveCodec env fuel
            (f { conn with incoming := (env.decodeOption conn.incoming).2 })).events)
          (serveCodec env fuel
            (f { conn with incoming := (env.decodeOption conn.incoming).2 })).state.2
          Status.returned
      else
        { events :=
            acceptedPrefix opt { conn with incoming := (env.decodeOption conn.incoming).2 }
              (f { conn with incoming := (env.decodeOption conn.incoming).2 }).1 ++
            (serveCodec env fuel
              (f { conn with incoming := (env.decodeOption conn.incoming).2 })).events
          conn := (serveCodec env fuel
              (f { conn with incoming := (env.decodeOption conn.incoming).2 })).state.2
          status := Status.serving } := by
  simp [ServeConn, h, hm, hf, acceptedPrefix]

/-- The four ways a handshake can go. -/
theorem handshake_cases (env : Env κ) (reg : FuncMap κ) (conn : Conn) :
    (∃ msg, (env.decodeOption conn.incoming).1 = Except.error msg) ∨
    (∃ opt, (env.decodeOption conn.incoming).1 = Except.ok opt ∧
      opt.MagicNumber ≠ MagicNumber) ∨
    (∃ opt, (env.decodeOption conn.incoming).1 = Except.ok opt ∧
      opt.MagicNumber = MagicNumber ∧ reg.get opt.CodecType = none) ∨
    (∃ opt f, (env.decodeOption conn.incoming).1 = Except.ok opt ∧
      opt.MagicNumber = MagicNumber ∧ reg.get opt.CodecType = some f) := by
  cases hd : (env.decodeOption conn.incoming).1 with
  | error msg => exact Or.inl ⟨msg, rfl⟩
  | ok opt =>
    by_cases hm : opt.MagicNumber = MagicNumber
    · cases hf : reg.get opt.CodecType with
      | none => exact Or.inr (Or.inr (Or.inl ⟨opt, rfl, hm, hf⟩))
      | some f => exact Or.inr (Or.inr (Or.inr ⟨opt, f, rfl, hm, hf⟩))
    · exact Or.inr (Or.inl ⟨opt, rfl, hm⟩)

theorem FuncMap.get_of_not_mem_keys (m : FuncMap κ) (k : Type_) (h : k ∉ m.keys) :
    m.get k = none := by
  induction m with
  | nil => rfl
  | cons p rest ih =>
    obtain ⟨k', v⟩ := p
    simp only [FuncMap.keys, List.map_cons, List.mem_cons, not_or] at h
    have hne : ¬ k' = k := fun e => h.1 e.symm
    simp only [FuncMap.get, hne, if_false]
    exact ih h.2

end Basics

section Handshake

variable {κ : Type}

theorem loopEvent_not_close (ev : Event κ) (h : ev.isLoopEvent = true) :
    ev.isClose = false := by
  cases ev <;> simp_all [Event.isLoopEvent, Event.isClose]

/-- C2: when ServeConn rejects the handshake (decode error, wrong magic number,
or no factory for the codec tag) it returns, no write is made and the written
bytes of the connection are unchanged, no codec is made and serveCodec is not
entered, and the connection is closed exactly once, as the last call. -/
theorem C2_rejected_handshake_closes_silently (env : Env κ) (reg : FuncMap κ) (fuel : Nat)
    (conn : Conn)
    (hrej : (∃ msg, (env.decodeOption conn.incoming).1 = Except.error msg) ∨
      (∃ opt, (env.decodeOption conn.incoming).1 = Except.ok opt ∧
        (opt.MagicNumber ≠ MagicNumber ∨ reg.get opt.CodecType = none))) :
    (ServeConn env reg fuel conn).status = Status.returned ∧
    (ServeConn env reg fuel conn).conn.written = conn.written ∧
    (∀ ev ∈ (ServeConn env reg fuel conn).events,
      ev.isWrite = false ∧ ev.isNewCodec = false ∧ ev.isServeCodec = false) ∧
    (ServeConn env reg fuel conn).conn.closeCalls = conn.closeCalls + 1 ∧
    (∃ pre, (ServeConn env reg fuel conn).events = pre ++ [Event.close] ∧
      ∀ ev ∈ pre, ev.isClose = false) := by
  have key : ∃ pre : List (Event κ),
      ServeConn env reg fuel conn =
        leave pre { conn with incoming := (env.decodeOption conn.incoming).2 }
          Status.returned ∧
      ∀ ev ∈ pre, ev.isWrite = false ∧ ev.isNewCodec = false ∧ ev.isServeCodec = false ∧
        ev.isClose = false := by
    rcases hrej with ⟨msg, hd⟩ | ⟨opt, hd, hbad⟩
    · refine ⟨_, ServeConn_decode_error env reg fuel conn msg hd, ?_⟩
      intro ev hev
      simp only [List.mem_cons, List.mem_singleton, List.not_mem_nil, or_false] at hev
      rcases hev with rfl | rfl <;> simp [Event.isWrite, Event.isNewCodec, Event.isServeCodec, Event.isClose]
    · by_cases hm : opt.MagicNumber = MagicNumber
      · have hf : reg.get opt.CodecType = none := by
          rcases hbad with h | h
          · exact absurd hm h
          · exact h
        refine ⟨_, ServeConn_no_codec env reg fuel conn opt hd hm hf, ?_⟩
        intro ev hev
        simp only [List.mem_cons, List.mem_singleton, List.not_mem_nil, or_false] at hev
        rcases hev with rfl | rfl | rfl <;>
          simp [Event.isWrite, Event.isNewCodec, Event.isServeCodec, Event.isClose]
      · refine ⟨_, ServeConn_bad_magic env reg fuel conn opt hd hm, ?_⟩
        intro ev hev
        simp only [List.mem_cons, List.mem_singleton, List.not_mem_nil, or_false] at hev
        rcases hev with rfl | rfl <;>
          simp [Event.isWrite, Event.isNewCodec, Event.isServeCodec, Event.isClose]
  obtain ⟨pre, heq, hpre⟩ := key
  rw [heq]
  refine ⟨rfl, rfl, ?_, rfl, pre, rfl, fun ev hev => (hpre ev hev).2.2.2⟩
  intro ev hev
  simp only [leave, List.mem_append, List.mem_singleton] at hev
  rcases hev with hev | rfl
  · exact ⟨(hpre ev hev).1, (hpre ev hev).2.1, (hpre ev hev).2.2.1⟩
  · simp [Event.isWrite, Event.isNewCodec, Event.isServeCodec]

/-- C3: the handshake is validated in the order decode, magic number, codec tag.
When the decode fails, ServeConn logs the options error and leaves, whatever the
registry holds.  When the decoded MagicNumber differs from 0x3bef5c, ServeConn
logs the invalid magic number and leaves, whatever the CodecType and the
registry are; the registry is not looked up and no factory is called.  A lookup
happens only for a decoded Option with the right magic number. -/
theorem C3_validation_order (env : Env κ) (fuel : Nat) (conn : Conn) :
    (∀ msg, (env.decodeOption conn.incoming).1 = Except.error msg →
      ∀ reg : FuncMap κ,
        ServeConn env reg fuel conn =
          leave [Event.decode, Event.log ("rpc server: options error:  " ++ msg)]
            { conn with incoming := (env.decodeOption conn.incoming).2 } Status.returned) ∧
    (∀ opt, (env.decodeOption conn.incoming).1 = Except.ok opt →
      opt.MagicNumber ≠ MagicNumber →
      ∀ reg : FuncMap κ,
        ServeConn env reg fuel conn =
          leave [Event.decode,
            Event.log ("rpc server: invalid magic number " ++ fmtHex opt.MagicNumber)]
            { conn with incoming := (env.decodeOption conn.incoming).2 } Status.returned ∧
        ∀ ev ∈ (ServeConn env reg fuel conn).events,
          ev.isLookup = false ∧ ev.isNewCodec = false ∧ ev.isServeCodec = false) ∧
    (∀ (reg : FuncMap κ) (ev : Event κ), ev ∈ (ServeConn env reg fuel conn).events →
      ev.isLookup = true ∨ ev.isNewCodec = true →
      ∃ opt, (env.decodeOption conn.incoming).1 = Except.ok opt ∧
        opt.MagicNumber = MagicNumber) := by
  refine ⟨?_, ?_, ?_⟩
  · intro msg hd reg
    exact ServeConn_decode_error env reg fuel conn msg hd
  · intro opt hd hm reg
    refine ⟨ServeConn_bad_magic env reg fuel conn opt hd hm, ?_⟩
    rw [ServeConn_bad_magic env reg fuel conn opt hd hm]
    intro ev hev
    simp only [leave, List.cons_append, List.nil_append, List.mem_cons, List.mem_singleton,
      List.not_mem_nil, or_false] at hev
    rcases hev with rfl | rfl | rfl <;>
      simp [Event.isLookup, Event.isNewCodec, Event.isServeCodec]
  · intro reg ev hev hkind
    rcases handshake_cases env reg conn with ⟨msg, hd⟩ | ⟨opt, hd, hm⟩ | ⟨opt, hd, hm, _⟩ |
      ⟨opt, f, hd, hm, _⟩
    · rw [ServeConn_decode_error env reg fuel conn msg hd] at hev
      simp only [leave, List.cons_append, List.nil_append, List.mem_cons, List.mem_singleton,
        List.not_mem_nil, or_false] at hev
      rcases hev with rfl | rfl | rfl <;> simp [Event.isLookup, Event.isNewCodec] at hkind
    · rw [ServeConn_bad_magic env reg fuel conn opt hd hm] at hev
      simp only [leave, List.cons_append, List.nil_append, List.mem_cons, List.mem_singleton,
        List.not_mem_nil, or_false] at hev
      rcases hev with rfl | rfl | rfl <;> simp [Event.isLookup, Event.isNewCodec] at hkind
    · exact ⟨opt, hd, hm⟩
    · exact ⟨opt, hd, hm⟩

/-- C4: for an Option with the right MagicNumber whose CodecType is not a key of
the registry, the lookup yields the nil factory, ServeConn does not call it and
enters no serveCodec, logs the invalid codec type, closes the connection and
returns normally; and no execution of ServeConn ends in a fault. -/
theorem C4_unregistered_codec_is_recoverable (env : Env κ) (reg : FuncMap κ) (fuel : Nat)
    (conn : Conn) (opt : Option_)
    (hd : (env.decodeOption conn.incoming).1 = Except.ok opt)
    (hm : opt.MagicNumber = MagicNumber) (hkey : opt.CodecType ∉ reg.keys) :
    reg.get opt.CodecType = none ∧
    ServeConn env reg fuel conn =
      leave [Event.decode, Event.lookup opt.CodecType,
        Event.log ("rpc server: invalid codec type " ++ opt.CodecType)]
        { conn with incoming := (env.decodeOption conn.incoming).2 } Status.returned ∧
    (ServeConn env reg fuel conn).status = Status.returned ∧
    (∀ ev ∈ (ServeConn env reg fuel conn).events,
      ev.isNewCodec = false ∧ ev.isServeCodec = false) ∧
    (∀ (reg1 : FuncMap κ) (fuel1 : Nat) (conn1 : Conn),
      (ServeConn env reg1 fuel1 conn1).status ≠ Status.fault) := by
  have hf := FuncMap.get_of_not_mem_keys reg opt.CodecType hkey
  have heq := ServeConn_no_codec env reg fuel conn opt hd hm hf
  refine ⟨hf, heq, ?_, ?_, ?_⟩
  · rw [heq]; rfl
  · rw [heq]
    intro ev hev
    simp only [leave, List.cons_append, List.nil_append, List.mem_cons, List.mem_singleton,
      List.not_mem_nil, or_false] at hev
    rcases hev with rfl | rfl | rfl | rfl <;> simp [Event.isNewCodec, Event.isServeCodec]
  · intro reg1 fuel1 conn1
    rcases handshake_cases env reg1 conn1 with ⟨msg, h1⟩ | ⟨o, h1, h2⟩ | ⟨o, h1, h2, h3⟩ |
      ⟨o, f, h1, h2, h3⟩
    · rw [ServeConn_decode_error env reg1 fuel1 conn1 msg h1]; simp [leave]
    · rw [ServeConn_bad_magic env reg1 fuel1 conn1 o h1 h2]; simp [leave]
    · rw [ServeConn_no_codec env reg1 fuel1 conn1 o h1 h2 h3]; simp [leave]
    · rw [ServeConn_accept env reg1 fuel1 conn1 o f h1 h2 h3]
      split <;> simp [leave]

/-- Order of the close among the calls of `ServeConn`: none inside the serving
loop, none while it runs, and exactly one, as the last call, on every return. -/
theorem ServeConn_close_order (env : Env κ) (reg : FuncMap κ) (fuel : Nat)
    (conn : Conn) :
    (∀ (n : Nat) (s : κ × Conn), ∀ ev ∈ (serveCodec env n s).events, ev.isClose = false) ∧
    ((ServeConn env reg fuel conn).status = Status.returned →
      ∃ pre, (ServeConn env reg fuel conn).events = pre ++ [Event.close] ∧
        ∀ ev ∈ pre, ev.isClose = false) ∧
    ((ServeConn env reg fuel conn).status = Status.serving →
      ∀ ev ∈ (ServeConn env reg fuel conn).events, ev.isClose = false) ∧
    (ServeConn env reg fuel conn).status ≠ Status.fault ∧
    (∀ opt f, (env.decodeOption conn.incoming).1 = Except.ok opt →
      opt.MagicNumber = MagicNumber → reg.get opt.CodecType = some f →
      (ServeConn env reg fuel conn).events =
        acceptedPrefix opt { conn with incoming := (env.decodeOption conn.incoming).2 }
            (f { conn with incoming := (env.decodeOption conn.incoming).2 }).1 ++
          (serveCodec env fuel
            (f { conn with incoming := (env.decodeOption conn.incoming).2 })).events ++
          (if (serveCodec env fuel
              (f { conn with incoming := (env.decodeOption conn.incoming).2 })).returned
            then [Event.close] else []) ∧
      ((ServeConn env reg fuel conn).status = Status.returned ↔
        (serveCodec env fuel
          (f { conn with incoming := (env.decodeOption conn.incoming).2 })).returned =
          true)) := by
  have hloop : ∀ (n : Nat) (s : κ × Conn), ∀ ev ∈ (serveCodec env n s).events,
      ev.isClose = false :=
    fun n s ev hev => loopEvent_not_close ev (serveCodec_events env n s ev hev)
  have hpre : ∀ (opt : Option_) (c : Conn) (cc : κ) (n : Nat) (s : κ × Conn),
      ∀ ev ∈ acceptedPrefix opt c cc ++ (serveCodec env n s).events, ev.isClose = false := by
    intro opt c cc n s ev hev
    rcases List.mem_append.mp hev with h | h
    · simp only [acceptedPrefix, List.mem_cons, List.mem_singleton, List.not_mem_nil,
        or_false] at h
      rcases h with rfl | rfl | rfl | rfl <;> rfl
    · exact hloop n s ev h
  refine ⟨hloop, ?_, ?_, ?_, ?_⟩
  · intro _
    rcases handshake_cases env reg conn with ⟨msg, h1⟩ | ⟨o, h1, h2⟩ | ⟨o, h1, h2, h3⟩ |
      ⟨o, f, h1, h2, h3⟩
    · rw [ServeConn_decode_error env reg fuel conn msg h1]
      refine ⟨_, rfl, ?_⟩
      intro ev hev
      simp only [List.mem_cons, List.mem_singleton, List.not_mem_nil, or_false] at hev
      rcases hev with rfl | rfl <;> rfl
    · rw [ServeConn_bad_magic env reg fuel conn o h1 h2]
      refine ⟨_, rfl, ?_⟩
      intro ev hev
      simp only [List.mem_cons, List.mem_singleton, List.not_mem_nil, or_false] at hev
      rcases hev with rfl | rfl <;> rfl
    · rw [ServeConn_no_codec env reg fuel conn o h1 h2 h3]
      refine ⟨_, rfl, ?_⟩
      intro ev hev
      simp only [List.mem_cons, List.mem_singleton, List.not_mem_nil, or_false] at hev
      rcases hev with rfl | rfl | rfl <;> rfl
    · rename_i hst
      rw [ServeConn_accept env reg fuel conn o f h1 h2 h3] at hst ⊢
      split at hst
      · rename_i hret
        rw [if_pos hret]
        exact ⟨_, rfl, hpre _ _ _ _ _⟩
      · simp at hst
  · intro hst
    rcases handshake_cases env reg conn with ⟨msg, h1⟩ | ⟨o, h1, h2⟩ | ⟨o, h1, h2, h3⟩ |
      ⟨o, f, h1, h2, h3⟩
    · rw [ServeConn_decode_error env reg fuel conn msg h1] at hst; simp [leave] at hst
    · rw [ServeConn_bad_magic env reg fuel conn o h1 h2] at hst; simp [leave] at hst
    · rw [ServeConn_no_codec env reg fuel conn o h1 h2 h3] at hst; simp [leave] at hst
    · rw [ServeConn_accept env reg fuel conn o f h1 h2 h3] at hst ⊢
      split at hst
      · simp [leave] at hst
      · rename_i hret
        rw [if_neg hret]
        exact hpre _ _ _ _ _
  · rcases handshake_cases env reg conn with ⟨msg, h1⟩ | ⟨o, h1, h2⟩ | ⟨o, h1, h2, h3⟩ |
      ⟨o, f, h1, h2, h3⟩
    · rw [ServeConn_decode_error env reg fuel conn msg h1]; simp [leave]
    · rw [ServeConn_bad_magic env reg fuel conn o h1 h2]; simp [leave]
    · rw [ServeConn_no_codec env reg fuel conn o h1 h2 h3]; simp [leave]
    · rw [ServeConn_accept env reg fuel conn o f h1 h2 h3]
      split <;> simp [leave]
  · intro opt f h1 h2 h3
    rw [ServeConn_accept env reg fuel conn opt f h1 h2 h3]
    by_cases hret : (serveCodec env fuel
        (f { conn with incoming := (env.decodeOption conn.incoming).2 })).returned = true
    · simp [hret, leave]
    · simp [hret]

/-- The serving loop leaves the close count of the connection alone when the
codec's read and write do. -/
theorem serveCodec_closeCalls (env : Env κ)
    (hread : ∀ s : κ × Conn, (env.readRequest s).2.2.closeCalls = s.2.closeCalls)
    (hwrite : ∀ (h : Header) (b : Body) (s : κ × Conn),
      (env.Write h b s).2.2.closeCalls = s.2.closeCalls) :
    ∀ (fuel : Nat) (s : κ × Conn),
      (serveCodec env fuel s).state.2.closeCalls = s.2.closeCalls := by
  intro fuel
  induction fuel with
  | zero => intro s; rfl
  | succ n ih =>
    intro s
    cases herr : (env.readRequest s).1.err with
    | none =>
      rw [serveCodec_next env n s herr]
      simp only [Run.after]
      rw [ih, hread]
    | some e =>
      cases hreq : (env.readRequest s).1.req with
      | none =>
        rw [serveCodec_break env n s e herr hreq]
        exact hread s
      | some req =>
        rw [serveCodec_reply env n s e req herr hreq]
        simp only [Run.after]
        rw [ih]
        simp only [sendResponse]
        rw [hwrite, hread]

/-- C8: the connection is closed at most once.  serveCodec makes no close call,
neither on the connection nor on the codec.  Whenever ServeConn returns, after
any of the three rejections or after serveCodec has returned, its last call is
the one Close of the connection and no close comes before it; while serveCodec
has not returned no close has happened; ServeConn never ends in a fault.  In the
accepted case the calls are the handshake, the calls of the serving loop, and
then the Close exactly if the loop has returned.  On the connection itself: after
a rejection it is the connection the decoder left, closed once; in the accepted
case it is the connection the serving loop left, closed once if the loop has
returned and not closed otherwise; and when the factory and the codec's read and
write do not close the connection, its close count is one higher than at the
start on every return and unchanged while serving. -/
theorem C8_connection_closed_once (env : Env κ) (reg : FuncMap κ) (fuel : Nat)
    (conn : Conn) :
    ((∀ (n : Nat) (s : κ × Conn), ∀ ev ∈ (serveCodec env n s).events, ev.isClose = false) ∧
    ((ServeConn env reg fuel conn).status = Status.returned →
      ∃ pre, (ServeConn env reg fuel conn).events = pre ++ [Event.close] ∧
        ∀ ev ∈ pre, ev.isClose = false) ∧
    ((ServeConn env reg fuel conn).status = Status.serving →
      ∀ ev ∈ (ServeConn env reg fuel conn).events, ev.isClose = false) ∧
    (ServeConn env reg fuel conn).status ≠ Status.fault ∧
    (∀ opt f, (env.decodeOption conn.incoming).1 = Except.ok opt →
      opt.MagicNumber = MagicNumber → reg.get opt.CodecType = some f →
      (ServeConn env reg fuel conn).events =
        acceptedPrefix opt { conn with incoming := (env.decodeOption conn.incoming).2 }
            (f { conn with incoming := (env.decodeOption conn.incoming).2 }).1 ++
          (serveCodec env fuel
            (f { conn with incoming := (env.decodeOption conn.incoming).2 })).events ++
          (if (serveCodec env fuel
              (f { conn with incoming := (env.decodeOption conn.incoming).2 })).returned
            then [Event.close] else []) ∧
      ((ServeConn env reg fuel conn).status = Status.returned ↔
        (serveCodec env fuel
          (f { conn with incoming := (env.decodeOption conn.incoming).2 })).returned =
          true))) ∧
    (((∃ msg, (env.decodeOption conn.incoming).1 = Except.error msg) ∨
      (∃ opt, (env.decodeOption conn.incoming).1 = Except.ok opt ∧
        (opt.MagicNumber ≠ MagicNumber ∨ reg.get opt.CodecType = none))) →
      (ServeConn env reg fuel conn).conn =
        Conn.Close { conn with incoming := (env.decodeOption conn.incoming).2 } ∧
      (ServeConn env reg fuel conn).conn.closeCalls = conn.closeCalls + 1) ∧
    (∀ opt f, (env.decodeOption conn.incoming).1 = Except.ok opt →
      opt.MagicNumber = MagicNumber → reg.get opt.CodecType = some f →
      (ServeConn env reg fuel conn).conn =
        if (serveCodec env fuel
            (f { conn with incoming := (env.decodeOption conn.incoming).2 })).returned
        then
          Conn.Close (serveCodec env fuel
            (f { conn with incoming := (env.decodeOption conn.incoming).2 })).state.2
        else
          (serveCodec env fuel
            (f { conn with incoming := (env.decodeOption conn.incoming).2 })).state.2) ∧
    ((∀ s : κ × Conn, (env.readRequest s).2.2.closeCalls = s.2.closeCalls) →
      (∀ (h : Header) (b : Body) (s : κ × Conn),
        (env.Write h b s).2.2.closeCalls = s.2.closeCalls) →
      (∀ (t : Type_) (f : NewCodecFunc κ) (c : Conn), reg.get t = some f →
        (f c).2.closeCalls = c.closeCalls) →
      ((ServeConn env reg fuel conn).status = Status.returned →
        (ServeConn env reg fuel conn).conn.closeCalls = conn.closeCalls + 1) ∧
      ((ServeConn env reg fuel conn).status = Status.serving →
        (ServeConn env reg fuel conn).conn.closeCalls = conn.closeCalls)) := by
  have hrej : ((∃ msg, (env.decodeOption conn.incoming).1 = Except.error msg) ∨
      (∃ opt, (env.decodeOption conn.incoming).1 = Except.ok opt ∧
        (opt.MagicNumber ≠ MagicNumber ∨ reg.get opt.CodecType = none))) →
      (ServeConn env reg fuel conn).conn =
        Conn.Close { conn with incoming := (env.decodeOption conn.incoming).2 } ∧
      (ServeConn env reg fuel conn).status = Status.returned := by
    rintro (⟨msg, hd⟩ | ⟨opt, hd, hbad⟩)
    · rw [ServeConn_decode_error env reg fuel conn msg hd]; exact ⟨rfl, rfl⟩
    · by_cases hm : opt.MagicNumber = MagicNumber
      · have hf : reg.get opt.CodecType = none := by
          rcases hbad with h | h
          · exact absurd hm h
          · exact h
        rw [ServeConn_no_codec env reg fuel conn opt hd hm hf]; exact ⟨rfl, rfl⟩
      · rw [ServeConn_bad_magic env reg fuel conn opt hd hm]; exact ⟨rfl, rfl⟩
  have hacc : ∀ opt f, (env.decodeOption conn.incoming).1 = Except.ok opt →
      opt.MagicNumber = MagicNumber → reg.get opt.CodecType = some f →
      (ServeConn env reg fuel conn).conn =
        if (serveCodec env fuel
            (f { conn with incoming := (env.decodeOption conn.incoming).2 })).returned
        then
          Conn.Close (serveCodec env fuel
            (f { conn with incoming := (env.decodeOption conn.incoming).2 })).state.2
        else
          (serveCodec env fuel
            (f { conn with incoming := (env.decodeOption conn.incoming).2 })).state.2 := by
    intro opt f h1 h2 h3
    rw [ServeConn_accept env reg fuel conn opt f h1 h2 h3]
    by_cases hret : (serveCodec env fuel
        (f { conn with incoming := (env.decodeOption conn.incoming).2 })).returned = true
    · simp [hret, leave]
    · simp [hret]
  refine ⟨ServeConn_close_order env reg fuel conn, ?_, hacc, ?_⟩
  · intro h
    refine ⟨(hrej h).1, ?_⟩
    rw [(hrej h).1]
    rfl
  · intro hread hwrite hfac
    have hloop := serveCodec_closeCalls env hread hwrite fuel
    rcases handshake_cases env reg conn with ⟨msg, h1⟩ | ⟨o, h1, h2⟩ | ⟨o, h1, h2, h3⟩ |
      ⟨o, f, h1, h2, h3⟩
    · have h := hrej (Or.inl ⟨msg, h1⟩)
      rw [h.1, h.2]
      exact ⟨fun _ => rfl, fun hs => by cases hs⟩
    · have h := hrej (Or.inr ⟨o, h1, Or.inl h2⟩)
      rw [h.1, h.2]
      exact ⟨fun _ => rfl, fun hs => by cases hs⟩
    · have h := hrej (Or.inr ⟨o, h1, Or.inr h3⟩)
      rw [h.1, h.2]
      exact ⟨fun _ => rfl, fun hs => by cases hs⟩
    · have hc := hacc o f h1 h2 h3
      have hst := ((ServeConn_close_order env reg fuel conn).2.2.2.2 o f h1 h2 h3).2
      have hcount : (serveCodec env fuel
          (f { conn with incoming := (env.decodeOption conn.incoming).2 })).state.2.closeCalls =
          conn.closeCalls := by
        rw [hloop, hfac o.CodecType f _ h3]
      by_cases hret : (serveCodec env fuel
          (f { conn with incoming := (env.decodeOption conn.incoming).2 })).returned = true
      · rw [if_pos hret] at hc
        refine ⟨fun _ => ?_, fun hs => ?_⟩
        · rw [hc]
          simp only [Conn.Close]
          rw [hcount]
        · rw [hst.mpr hret] at hs
          cases hs
      · rw [if_neg hret] at hc
        refine ⟨fun hs => absurd (hst.mp hs) hret, fun _ => ?_⟩
        rw [hc]
        exact hcount

end Handshake

/-! ## The serving loop -/

section Loop

variable {κ : Type}

/-- Running `k + m` iterations is running `k` iterations and, unless the loop was
left, `m` more from the state reached. -/
theorem serveCodec_add (env : Env κ) (m : Nat) :
    ∀ (k : Nat) (s : κ × Conn),
      serveCodec env (k + m) s =
        if (serveCodec env k s).returned then serveCodec env k s
        else Run.after (serveCodec env k s).events
          (serveCodec env m (serveCodec env k s).state) := by
  intro k
  induction k with
  | zero => intro s; simp [serveCodec, Run.after]
  | succ k ih =>
    intro s
    have hk : k + 1 + m = (k + m) + 1 := by omega
    rw [hk]
    cases herr : (env.readRequest s).1.err with
    | none =>
      rw [serveCodec_next env (k + m) s herr, serveCodec_next env k s herr, ih]
      by_cases hret : (serveCodec env k (env.readRequest s).2).returned = true
      · simp [hret, Run.after]
      · simp [hret, Run.after]
    | some e =>
      cases hreq : (env.readRequest s).1.req with
      | none =>
        rw [serveCodec_break env (k + m) s e herr hreq, serveCodec_break env k s e herr hreq]
        simp
      | some req =>
        rw [serveCodec_reply env (k + m) s e req herr hreq,
          serveCodec_reply env k s e req herr hreq, ih]
        by_cases hret : (serveCodec env k
            (sendResponse env { req.h with Error := e } Body.invalidRequest
              (env.readRequest s).2).2).returned = true
        · simp [hret, Run.after]
        · simp [hret, Run.after]

theorem loopEvent_failedRead_or (ev : Event κ) (h : ev.isFailedRead = true) :
    ev.isRead = true := by
  cases ev <;> simp_all [Event.isFailedRead, Event.isRead]

theorem sendResponse_no_read (env : Env κ) (h : Header) (body : Body) (s : κ × Conn) :
    ∀ ev ∈ (sendResponse env h body s).1, ev.isRead = false := by
  intro ev hev
  unfold sendResponse at hev
  cases hw : (env.Write h body s).1 <;> simp [hw, writeFailureLog] at hev <;>
    rcases hev with rfl | rfl | rfl | rfl <;> rfl

/-- While the loop has not been left, every iteration made one read and none of
them was a header failure. -/
theorem serveCodec_running (env : Env κ) :
    ∀ (fuel : Nat) (s : κ × Conn), (serveCodec env fuel s).returned = false →
      (∀ ev ∈ (serveCodec env fuel s).events, ev.isFailedRead = false) ∧
      ((serveCodec env fuel s).events.filter Event.isRead).length = fuel := by
  intro fuel
  induction fuel with
  | zero => intro s _; simp [serveCodec]
  | succ n ih =>
    intro s hret
    cases herr : (env.readRequest s).1.err with
    | none =>
      rw [serveCodec_next env n s herr] at hret ⊢
      have h := ih _ (by simpa [Run.after] using hret)
      refine ⟨?_, ?_⟩
      · intro ev hev
        simp only [Run.after, List.cons_append, List.nil_append, List.mem_cons] at hev
        rcases hev with rfl | hev
        · simp [Event.isFailedRead, ReadResult.headerFailure, herr]
        · exact h.1 ev hev
      · simp [Run.after, List.filter_cons, Event.isRead, h.2]
    | some e =>
      cases hreq : (env.readRequest s).1.req with
      | none =>
        rw [serveCodec_break env n s e herr hreq] at hret
        simp at hret
      | some req =>
        rw [serveCodec_reply env n s e req herr hreq] at hret ⊢
        have h := ih _ (by simpa [Run.after] using hret)
        have hsent := sendResponse_no_read env { req.h with Error := e }
          Body.invalidRequest (env.readRequest s).2
        refine ⟨?_, ?_⟩
        · intro ev hev
          simp only [Run.after, List.cons_append, List.mem_cons, List.mem_append] at hev
          rcases hev with rfl | hev | hev
          · simp [Event.isFailedRead, ReadResult.headerFailure, hreq]
          · cases hfr : ev.isFailedRead with
            | false => rfl
            | true =>
              have := hsent ev hev
              rw [loopEvent_failedRead_or ev hfr] at this
              exact absurd this (by simp)
          · exact h.1 ev hev
        · have hnil : (sendResponse env { req.h with Error := e } Body.invalidRequest
              (env.readRequest s).2).1.filter Event.isRead = [] := by
            rw [List.filter_eq_nil_iff]
            intro ev hev
            simp [hsent ev hev]
          simp [Run.after, List.filter_cons, List.filter_append, Event.isRead, h.2, hnil]

/-- C6: a header-read failure ends the serving loop.  If the loop is still
running after k iterations and the next readRequest returns an error with a nil
request, then with any fuel above k serveCodec returns, and its calls are those
of the first k iterations followed by that one failed read and nothing else: no
write for it and no further read.  Every run that returns ends in this way with
its first failed read, and a run that has not returned has seen no failed
read. -/
theorem C6_header_failure_ends_loop (env : Env κ) (s : κ × Conn) :
    (∀ k : Nat, (serveCodec env k s).returned = false →
      (env.readRequest (serveCodec env k s).state).1.headerFailure = true →
      ∀ fuel : Nat, k < fuel →
        serveCodec env fuel s =
          { events := (serveCodec env k s).events ++
              [Event.read (env.readRequest (serveCodec env k s).state).1]
            state := (env.readRequest (serveCodec env k s).state).2
            returned := true }) ∧
    (∀ fuel : Nat, (serveCodec env fuel s).returned = true →
      ∃ pre r, (serveCodec env fuel s).events = pre ++ [Event.read r] ∧
        r.headerFailure = true ∧ (∀ ev ∈ pre, ev.isFailedRead = false) ∧
        (pre.filter Event.isRead).length < fuel) ∧
    (∀ fuel : Nat, (serveCodec env fuel s).returned = false →
      (∀ ev ∈ (serveCodec env fuel s).events, ev.isFailedRead = false) ∧
      ((serveCodec env fuel s).events.filter Event.isRead).length = fuel) := by
  have first : ∀ k : Nat, (serveCodec env k s).returned = false →
      (env.readRequest (serveCodec env k s).state).1.headerFailure = true →
      ∀ fuel : Nat, k < fuel →
        serveCodec env fuel s =
          { events := (serveCodec env k s).events ++
              [Event.read (env.readRequest (serveCodec env k s).state).1]
            state := (env.readRequest (serveCodec env k s).state).2
            returned := true } := by
    intro k hrun hfail fuel hlt
    obtain ⟨m, rfl⟩ : ∃ m, fuel = k + (m + 1) := ⟨fuel - k - 1, by omega⟩
    rw [serveCodec_add env (m + 1) k s]
    simp only [hrun, Bool.false_eq_true, if_false]
    simp only [ReadResult.headerFailure, Bool.and_eq_true, Option.isSome_iff_exists,
      Option.isNone_iff_eq_none] at hfail
    obtain ⟨⟨e, herr⟩, hreq⟩ := hfail
    rw [serveCodec_break env m _ e herr hreq]
    simp [Run.after]
  refine ⟨first, ?_, fun fuel h => serveCodec_running env fuel s h⟩
  intro fuel
  induction fuel with
  | zero => intro h; simp [serveCodec] at h
  | succ n ih =>
    intro hret
    by_cases hn : (serveCodec env n s).returned = true
    · obtain ⟨pre, r, hev, hr, hpre, hlen⟩ := ih hn
      have heq : serveCodec env (n + 1) s = serveCodec env n s := by
        rw [serveCodec_add env 1 n s]; simp [hn]
      rw [heq]
      exact ⟨pre, r, hev, hr, hpre, by omega⟩
    · have hn' : (serveCodec env n s).returned = false := by simpa using hn
      have hadd := serveCodec_add env 1 n s
      simp only [hn', Bool.false_eq_true, if_false] at hadd
      have hrun := serveCodec_running env n s hn'
      cases herr : (env.readRequest (serveCodec env n s).state).1.err with
      | none =>
        rw [hadd, serveCodec_next env 0 _ herr] at hret
        simp [Run.after, serveCodec] at hret
      | some e =>
        cases hreq : (env.readRequest (serveCodec env n s).state).1.req with
        | none =>
          have hfail : (env.readRequest (serveCodec env n s).state).1.headerFailure = true := by
            simp [ReadResult.headerFailure, herr, hreq]
          rw [first n hn' hfail (n + 1) (by omega)]
          exact ⟨_, _, rfl, hfail, hrun.1, by rw [hrun.2]; omega⟩
        | some req =>
          rw [hadd, serveCodec_reply env 0 _ e req herr hreq] at hret
          simp [Run.after, serveCodec] at hret

/-- Every iteration starts with a call of `readRequest`. -/
theorem serveCodec_head (env : Env κ) (fuel : Nat) (s : κ × Conn) :
    ∃ tail, (serveCodec env (fuel + 1) s).events =
      Event.read (env.readRequest s).1 :: tail := by
  cases herr : (env.readRequest s).1.err with
  | none => rw [serveCodec_next env fuel s herr]; exact ⟨_, rfl⟩
  | some e =>
    cases hreq : (env.readRequest s).1.req with
    | none => rw [serveCodec_break env fuel s e herr hreq]; exact ⟨_, rfl⟩
    | some req => rw [serveCodec_reply env fuel s e req herr hreq]; exact ⟨_, rfl⟩

/-- C7 as stated fails in two places.  An error whose text is empty is still an
error: when readRequest returns the request with Seq 7 together with an error of
empty text, the reply header that is written has Seq 7 and an empty Error.  And
the request with Seq 8 that follows and is read without error is read and
nothing more: the loop body of serveCodec ends behind the error branch, so no
call is made for it before the next readRequest. -/
theorem C7_empty_error_text_gives_empty_Error :
    (serveCodec (scriptEnv (fixedDecoder (Except.ok DefaultOption))) 3
        ([{ req := some { h := { ServiceMethod := "Foo.Sum", Seq := 7, Error := "" }
                          argv := Body.value "", replyv := Body.value "" }
            err := some "" },
          { req := some { h := { ServiceMethod := "Foo.Sum", Seq := 8, Error := "" }
                          argv := Body.value "x", replyv := Body.value "" }
            err := none }],
          { incoming := [], written := [], closeCalls := 0 })).events =
      [Event.read { req := some { h := { ServiceMethod := "Foo.Sum", Seq := 7, Error := "" }
                                  argv := Body.value "", replyv := Body.value "" }
                    err := some "" },
        Event.lock,
        Event.write { ServiceMethod := "Foo.Sum", Seq := 7, Error := "" } Body.invalidRequest,
        Event.unlock,
        Event.read { req := some { h := { ServiceMethod := "Foo.Sum", Seq := 8, Error := "" }
                                   argv := Body.value "x", replyv := Body.value "" }
                     err := none },
        Event.read { req := none, err := some "EOF" }] := by
  decide

/-- C7 (amended): when readRequest returns an error together with a request, the
iteration writes, under the lock, one reply with the sentinel body whose header
keeps the request's ServiceMethod and Seq and whose Error equals the error's
text (so it is non-empty whenever that text is non-empty); the loop is not left,
it goes on from the state after the write, and its next call is the next
readRequest: the next request is still read.  What is done with a request that
was read without error is not part of this statement. -/
theorem C7_body_failure_is_answered (env : Env κ) (s : κ × Conn) (e : String)
    (req : request)
    (herr : (env.readRequest s).1.err = some e)
    (hreq : (env.readRequest s).1.req = some req) :
    (∀ fuel : Nat,
      serveCodec env (fuel + 1) s =
        Run.after
          (Event.read (env.readRequest s).1 :: Event.lock ::
            Event.write { ServiceMethod := req.h.ServiceMethod, Seq := req.h.Seq, Error := e }
              Body.invalidRequest ::
            Event.unlock ::
            writeFailureLog
              (env.Write { ServiceMethod := req.h.ServiceMethod, Seq := req.h.Seq, Error := e }
                Body.invalidRequest (env.readRequest s).2).1)
          (serveCodec env fuel
            (env.Write { ServiceMethod := req.h.ServiceMethod, Seq := req.h.Seq, Error := e }
              Body.invalidRequest (env.readRequest s).2).2)) ∧
    (serveCodec env 1 s).returned = false ∧
    (∀ (h : Header) (body : Body), Event.write h body ∈ (serveCodec env 1 s).events →
      h.Seq = req.h.Seq ∧ h.ServiceMethod = req.h.ServiceMethod ∧ h.Error = e ∧
      (e ≠ "" → h.Error ≠ "") ∧ body = Body.invalidRequest) ∧
    (∀ fuel : Nat, ∃ tail,
      (serveCodec env (fuel + 2) s).events =
        (Event.read (env.readRequest s).1 :: Event.lock ::
          Event.write { ServiceMethod := req.h.ServiceMethod, Seq := req.h.Seq, Error := e }
            Body.invalidRequest ::
          Event.unlock ::
          writeFailureLog
            (env.Write { ServiceMethod := req.h.ServiceMethod, Seq := req.h.Seq, Error := e }
              Body.invalidRequest (env.readRequest s).2).1) ++
        Event.read
          (env.readRequest
            (env.Write { ServiceMethod := req.h.ServiceMethod, Seq := req.h.Seq, Error := e }
              Body.invalidRequest (env.readRequest s).2).2).1 :: tail) := by
  have step : ∀ fuel : Nat,
      serveCodec env (fuel + 1) s =
        Run.after
          (Event.read (env.readRequest s).1 :: Event.lock ::
            Event.write { ServiceMethod := req.h.ServiceMethod, Seq := req.h.Seq, Error := e }
              Body.invalidRequest ::
            Event.unlock ::
            writeFailureLog
              (env.Write { ServiceMethod := req.h.ServiceMethod, Seq := req.h.Seq, Error := e }
                Body.invalidRequest (env.readRequest s).2).1)
          (serveCodec env fuel
            (env.Write { ServiceMethod := req.h.ServiceMethod, Seq := req.h.Seq, Error := e }
              Body.invalidRequest (env.readRequest s).2).2) := by
    intro fuel
    rw [serveCodec_reply env fuel s e req herr hreq]
    simp [sendResponse]
  refine ⟨step, ?_, ?_, ?_⟩
  · rw [step 0]; simp [Run.after, serveCodec]
  · intro h body hmem
    rw [step 0] at hmem
    simp only [Run.after, serveCodec, List.append_nil, List.mem_cons] at hmem
    rcases hmem with hmem | hmem | hmem | hmem | hmem
    · cases hmem
    · cases hmem
    · cases hmem
      exact ⟨rfl, rfl, rfl, fun hne => hne, rfl⟩
    · cases hmem
    · unfold writeFailureLog at hmem
      split at hmem <;> simp at hmem
  · intro fuel
    obtain ⟨tail, htail⟩ := serveCodec_head env fuel
      (env.Write { ServiceMethod := req.h.ServiceMethod, Seq := req.h.Seq, Error := e }
        Body.invalidRequest (env.readRequest s).2).2
    refine ⟨tail, ?_⟩
    rw [step (fuel + 1)]
    simp only [Run.after, htail]

end Loop

/-! ## The write lock -/

section WriteLock

variable {κ : Type}

theorem Shared.start_heldBy (codec : κ × Conn) (replies : List (Header × Body)) :
    (Shared.start codec replies).heldBy none := by
  refine ⟨rfl, ?_⟩
  intro i w hw
  simp only [Shared.start, List.getElem?_map, Option.map_eq_some'] at hw
  obtain ⟨r, _, rfl⟩ := hw
  simp [Phase.inside]

theorem Shared.step_heldBy (env : Env κ) (sys : Shared κ) (i : Nat) (holder : Option Nat)
    (hinv : sys.heldBy holder) :
    ∃ holder1, (Shared.step env sys i).heldBy holder1 := by
  obtain ⟨hs, hw⟩ := hinv
  unfold Shared.step
  cases hi : sys.workers[i]? with
  | none => exact ⟨holder, hs, hw⟩
  | some w =>
    have hlt : i < sys.workers.length := by
      rcases List.getElem?_eq_some_iff.mp hi with ⟨h, _⟩
      exact h
    obtain ⟨wh, wb, ph⟩ := w
    cases ph with
    | waiting =>
      simp only
      by_cases hsend : sys.sending = true
      · simp only [hsend, if_true]
        exact ⟨holder, hs, hw⟩
      · simp only [hsend, Bool.false_eq_true, if_false]
        have hnone : holder = none := by
          cases holder with
          | none => rfl
          | some j => simp [hs] at hsend
        subst hnone
        refine ⟨some i, rfl, ?_⟩
        intro j wj hj
        simp only [List.getElem?_set, hlt, if_true] at hj
        by_cases hij : i = j
        · simp only [hij, if_true, Option.some.injEq] at hj
          subst hj
          simp [Phase.inside, hij]
        · simp only [hij, if_false] at hj
          have := hw j wj hj
          simp only [reduceCtorEq, iff_false] at this
          simp [this, hij]
    | holding =>
      simp only
      refine ⟨holder, hs, ?_⟩
      have hin : holder = some i := (hw i _ hi).mp (by simp [Phase.inside])
      intro j wj hj
      simp only [List.getElem?_set, hlt, if_true] at hj
      by_cases hij : i = j
      · simp only [hij, if_true, Option.some.injEq] at hj
        subst hj
        simp [Phase.inside, hin, hij]
      · simp only [hij, if_false] at hj
        exact hw j wj hj
    | writing =>
      simp only
      refine ⟨holder, hs, ?_⟩
      have hin : holder = some i := (hw i _ hi).mp (by simp [Phase.inside])
      intro j wj hj
      simp only [List.getElem?_set, hlt, if_true] at hj
      by_cases hij : i = j
      · simp only [hij, if_true, Option.some.injEq] at hj
        subst hj
        simp [Phase.inside, hin, hij]
      · simp only [hij, if_false] at hj
        exact hw j wj hj
    | wrote err =>
      simp only
      refine ⟨none, rfl, ?_⟩
      have hin : holder = some i := (hw i _ hi).mp (by simp [Phase.inside])
      intro j wj hj
      simp only [List.getElem?_set, hlt, if_true] at hj
      by_cases hij : i = j
      · simp only [hij, if_true, Option.some.injEq] at hj
        subst hj
        simp [Phase.inside]
      · simp only [hij, if_false] at hj
        have := hw j wj hj
        rw [hin] at this
        simp only [Option.some.injEq] at this
        simp only [reduceCtorEq, iff_false]
        intro hins
        exact hij (this.mp hins)
    | finished =>
      simp only
      exact ⟨holder, hs, hw⟩

theorem Shared.run_heldBy (env : Env κ) (sched : List Nat) :
    ∀ (sys : Shared κ) (holder : Option Nat), sys.heldBy holder →
      ∃ holder1, (Shared.run env sys sched).heldBy holder1 := by
  induction sched with
  | nil => intro sys holder h; exact ⟨holder, h⟩
  | cons i rest ih =>
    intro sys holder h
    obtain ⟨holder1, h1⟩ := Shared.step_heldBy env sys i holder h
    exact ih (Shared.step env sys i) holder1 h1

theorem wellLocked_serveCodec (env : Env κ) :
    ∀ (fuel : Nat) (s : κ × Conn), wellLocked (serveCodec env fuel s).events = true := by
  intro fuel
  induction fuel with
  | zero => intro s; simp [serveCodec, wellLocked]
  | succ n ih =>
    intro s
    cases herr : (env.readRequest s).1.err with
    | none =>
      rw [serveCodec_next env n s herr]
      simpa [Run.after, wellLocked] using ih _
    | some e =>
      cases hreq : (env.readRequest s).1.req with
      | none =>
        rw [serveCodec_break env n s e herr hreq]
        simp [wellLocked]
      | some req =>
        rw [serveCodec_reply env n s e req herr hreq]
        have h := ih (sendResponse env { req.h with Error := e } Body.invalidRequest
          (env.readRequest s).2).2
        simp only [sendResponse] at h ⊢
        cases hw : (env.Write { req.h with Error := e } Body.invalidRequest
            (env.readRequest s).2).1 with
        | none => simpa [Run.after, wellLocked, writeFailureLog, hw] using h
        | some msg => simpa [Run.after, wellLocked, writeFailureLog, hw] using h

/-- C9: writes on one connection are serialised by its write lock.  With any
number of workers answering concurrently, under every schedule, at most one
worker is inside the codec's Write at a time; a worker that has taken the lock
and not yet released it (so also every worker that calls Write or is inside it)
finds the lock held and is the only such worker; a waiting worker does not get
past a held lock; and the step after the return of Write releases the lock,
whether the write succeeded or failed.  A worker running alone makes exactly the
calls of the Response Writer, and in the serving loop every Write is preceded by
the Lock and followed by the Unlock. -/
theorem C9_writes_hold_the_lock (env : Env κ) (codec : κ × Conn)
    (replies : List (Header × Body)) (sched : List Nat) :
    (∀ (i j : Nat) (wi wj : Worker),
      (Shared.run env (Shared.start codec replies) sched).workers[i]? = some wi →
      (Shared.run env (Shared.start codec replies) sched).workers[j]? = some wj →
      wi.phase = Phase.writing → wj.phase = Phase.writing → i = j) ∧
    (∀ (i j : Nat) (wi wj : Worker),
      (Shared.run env (Shared.start codec replies) sched).workers[i]? = some wi →
      (Shared.run env (Shared.start codec replies) sched).workers[j]? = some wj →
      wi.phase.inside = true →
      (Shared.run env (Shared.start codec replies) sched).sending = true ∧
      (wj.phase.inside = true → i = j)) ∧
    (∀ (i : Nat) (w : Worker),
      (Shared.run env (Shared.start codec replies) sched).workers[i]? = some w →
      w.phase = Phase.waiting →
      (Shared.run env (Shared.start codec replies) sched).sending = true →
      Shared.step env (Shared.run env (Shared.start codec replies) sched) i =
        Shared.run env (Shared.start codec replies) sched) ∧
    (∀ (i : Nat) (w : Worker) (err : Option String),
      (Shared.run env (Shared.start codec replies) sched).workers[i]? = some w →
      w.phase = Phase.wrote err →
      (Shared.step env (Shared.run env (Shared.start codec replies) sched) i).sending = false ∧
      (Shared.step env (Shared.run env (Shared.start codec replies) sched) i).workers[i]? =
        some { w with phase := Phase.finished }) ∧
    (∀ (h : Header) (body : Body),
      (Shared.run env (Shared.start codec [(h, body)]) [0, 0, 0, 0]).events =
        (sendResponse env h body codec).1.map (fun ev => (0, ev)) ∧
      (Shared.run env (Shared.start codec [(h, body)]) [0, 0, 0, 0]).codec =
        (sendResponse env h body codec).2 ∧
      (Shared.run env (Shared.start codec [(h, body)]) [0, 0, 0, 0]).sending = false) ∧
    (∀ (fuel : Nat) (s : κ × Conn), wellLocked (serveCodec env fuel s).events = true) := by
  obtain ⟨holder, hs, hw⟩ :=
    Shared.run_heldBy env sched (Shared.start codec replies) none
      (Shared.start_heldBy codec replies)
  have inside_holds : ∀ (i : Nat) (w : Worker),
      (Shared.run env (Shared.start codec replies) sched).workers[i]? = some w →
      w.phase.inside = true → holder = some i := fun i w h hin => (hw i w h).mp hin
  refine ⟨?_, ?_, ?_, ?_, ?_, wellLocked_serveCodec env⟩
  · intro i j wi wj hi hj hpi hpj
    have h1 := inside_holds i wi hi (by simp [hpi, Phase.inside])
    have h2 := inside_holds j wj hj (by simp [hpj, Phase.inside])
    rw [h1] at h2
    exact Option.some.inj h2
  · intro i j wi wj hi hj hin
    have h1 := inside_holds i wi hi hin
    refine ⟨by rw [hs, h1]; rfl, ?_⟩
    intro hjn
    have h2 := inside_holds j wj hj hjn
    rw [h1] at h2
    exact Option.some.inj h2
  · intro i w hi hp hsend
    obtain ⟨wh, wb, ph⟩ := w
    simp only at hp
    subst hp
    simp [Shared.step, hi, hsend]
  · intro i w err hi hp
    obtain ⟨wh, wb, ph⟩ := w
    simp only at hp
    subst hp
    have hlt : i < (Shared.run env (Shared.start codec replies) sched).workers.length := by
      rcases List.getElem?_eq_some_iff.mp hi with ⟨h, _⟩
      exact h
    simp [Shared.step, hi, hlt]
  · intro h body
    cases hwr : (env.Write h body codec).1 <;>
      simp [Shared.run, Shared.start, Shared.step, sendResponse, writeFailureLog, hwr]

end WriteLock

/-! ## The handshake decoder reads ahead -/

section ReadAhead

/-- When the chunk delivered by the first `Read` holds one value followed by
further bytes, `Decode` takes the whole chunk from the connection: the bytes
behind the value are no longer there to be read. -/
theorem Decode_takes_whole_chunk (lib : JSON) (value rest : List Nat)
    (later : List (List Nat))
    (hempty : lib.scan [] false = Scan.more)
    (hdone : lib.scan (value ++ rest) false = Scan.done value.length)
    (hlen : (value ++ rest).length ≤ 512) :
    Decode lib ((value ++ rest) :: later) = (lib.unmarshal value, later) := by
  have hread : Conn.Read 512 ((value ++ rest) :: later) = (some (value ++ rest), later) := by
    simp only [Conn.Read, hlen, if_true]
  simp [Decode, readValue, hempty, hread, hdone]

/-- C10 fails on the code: the JSON decoder of the handshake reads from the
connection in chunks of up to 512 bytes and keeps what it read.  When the first
Read delivers the encoded DefaultOption together with the four bytes that follow
it, the codec factory gets a connection with nothing left to read, so the codec
never sees these four bytes; only when the Option arrives in a chunk of its own
are the bytes behind it still there. -/
theorem C10_bytes_behind_the_Option_are_lost :
    (ServeConn (scriptEnv (Decode flatJSON)) (NewCodeFuncMap (scriptFactory [])) 1
        (Conn.fresh [defaultOptionBytes ++ [10, 1, 2, 3]])).events =
      [Event.decode, Event.lookup "application/gob", Event.newCodec (Conn.fresh []),
        Event.serveCodec [], Event.read { req := none, err := some "EOF" }, Event.close] ∧
    (ServeConn (scriptEnv (Decode flatJSON)) (NewCodeFuncMap (scriptFactory [])) 1
        (Conn.fresh [defaultOptionBytes, [10, 1, 2, 3]])).events =
      [Event.decode, Event.lookup "application/gob",
        Event.newCodec (Conn.fresh [[10, 1, 2, 3]]),
        Event.serveCodec [], Event.read { req := none, err := some "EOF" }, Event.close] := by
  decide

end ReadAhead

/-! ## The theorems at concrete inputs -/

section Instances

/-- C2 at a concrete input: a handshake with magic number 1. -/
theorem C2_rejected_handshake_closes_silently_witness :
    (1 : Int) ≠ MagicNumber ∧
    (ServeConn
        (scriptEnv (fixedDecoder (Except.ok { MagicNumber := 1, CodecType := GobType })))
        (NewCodeFuncMap (scriptFactory [])) 2 (Conn.fresh [[1]])).status = Status.returned ∧
    (ServeConn
        (scriptEnv (fixedDecoder (Except.ok { MagicNumber := 1, CodecType := GobType })))
        (NewCodeFuncMap (scriptFactory [])) 2 (Conn.fresh [[1]])).conn.written = [] ∧
    (ServeConn
        (scriptEnv (fixedDecoder (Except.ok { MagicNumber := 1, CodecType := GobType })))
        (NewCodeFuncMap (scriptFactory [])) 2 (Conn.fresh [[1]])).conn.closeCalls = 1 :=
  ⟨by decide,
    (C2_rejected_handshake_closes_silently
      (scriptEnv (fixedDecoder (Except.ok { MagicNumber := 1, CodecType := GobType })))
      (NewCodeFuncMap (scriptFactory [])) 2 (Conn.fresh [[1]])
      (Or.inr ⟨{ MagicNumber := 1, CodecType := GobType }, rfl, Or.inl (by decide)⟩)).1,
    (C2_rejected_handshake_closes_silently
      (scriptEnv (fixedDecoder (Except.ok { MagicNumber := 1, CodecType := GobType })))
      (NewCodeFuncMap (scriptFactory [])) 2 (Conn.fresh [[1]])
      (Or.inr ⟨{ MagicNumber := 1, CodecType := GobType }, rfl, Or.inl (by decide)⟩)).2.1,
    (C2_rejected_handshake_closes_silently
      (scriptEnv (fixedDecoder (Except.ok { MagicNumber := 1, CodecType := GobType })))
      (NewCodeFuncMap (scriptFactory [])) 2 (Conn.fresh [[1]])
      (Or.inr ⟨{ MagicNumber := 1, CodecType := GobType }, rfl, Or.inl (by decide)⟩)).2.2.2.1⟩

/-- C3 at a concrete input: magic number 1 with the registered tag and with an
empty registry. -/
theorem C3_validation_order_witness :
    (1 : Int) ≠ MagicNumber ∧
    ServeConn (scriptEnv (fixedDecoder (Except.ok { MagicNumber := 1, CodecType := GobType })))
        [] 2 (Conn.fresh [[1]]) =
      leave [Event.decode, Event.log ("rpc server: invalid magic number " ++ fmtHex 1)]
        { Conn.fresh [[1]] with incoming := [] } Status.returned :=
  ⟨by decide,
    ((C3_validation_order
      (scriptEnv (fixedDecoder (Except.ok { MagicNumber := 1, CodecType := GobType })))
      2 (Conn.fresh [[1]])).2.1 { MagicNumber := 1, CodecType := GobType } rfl (by decide)
      []).1⟩

/-- C4 at a concrete input: the tag "application/xml". -/
theorem C4_unregistered_codec_is_recoverable_witness :
    "application/xml" ∉ (NewCodeFuncMap (scriptFactory [])).keys ∧
    (ServeConn
        (scriptEnv (fixedDecoder
          (Except.ok { MagicNumber := MagicNumber, CodecType := "application/xml" })))
        (NewCodeFuncMap (scriptFactory [])) 2 (Conn.fresh [[1]])).status = Status.returned :=
  ⟨by decide,
    (C4_unregistered_codec_is_recoverable
      (scriptEnv (fixedDecoder
        (Except.ok { MagicNumber := MagicNumber, CodecType := "application/xml" })))
      (NewCodeFuncMap (scriptFactory [])) 2 (Conn.fresh [[1]])
      { MagicNumber := MagicNumber, CodecType := "application/xml" } rfl rfl
      (by decide)).2.2.1⟩

/-- C6 at a concrete input: a request, then a header failure, then a request
that is never read. -/
theorem C6_header_failure_ends_loop_witness :
    serveCodec (scriptEnv (fixedDecoder (Except.ok DefaultOption))) 5
        ([{ req := some { h := { ServiceMethod := "Foo.Sum", Seq := 1, Error := "" }
                          argv := Body.value "a", replyv := Body.value "" }
            err := none },
          { req := none, err := some "unexpected EOF" },
          { req := some { h := { ServiceMethod := "Foo.Sum", Seq := 2, Error := "" }
                          argv := Body.value "b", replyv := Body.value "" }
            err := none }],
          Conn.fresh []) =
      { events :=
          [Event.read { req := some { h := { ServiceMethod := "Foo.Sum", Seq := 1, Error := "" }
                                      argv := Body.value "a", replyv := Body.value "" }
                        err := none },
            Event.read { req := none, err := some "unexpected EOF" }]
        state :=
          ([{ req := some { h := { ServiceMethod := "Foo.Sum", Seq := 2, Error := "" }
                            argv := Body.value "b", replyv := Body.value "" }
              err := none }],
            Conn.fresh [])
        returned := true } :=
  (C6_header_failure_ends_loop (scriptEnv (fixedDecoder (Except.ok DefaultOption)))
    ([{ req := some { h := { ServiceMethod := "Foo.Sum", Seq := 1, Error := "" }
                      argv := Body.value "a", replyv := Body.value "" }
        err := none },
      { req := none, err := some "unexpected EOF" },
      { req := some { h := { ServiceMethod := "Foo.Sum", Seq := 2, Error := "" }
                      argv := Body.value "b", replyv := Body.value "" }
        err := none }],
      Conn.fresh [])).1 1 rfl rfl 5 (by decide)

/-- C7 (amended) at a concrete input: a body failure for the request with Seq
7. -/
theorem C7_body_failure_is_answered_witness :
    (serveCodec (scriptEnv (fixedDecoder (Except.ok DefaultOption))) 1
        ([{ req := some { h := { ServiceMethod := "Foo.Sum", Seq := 7, Error := "" }
                          argv := Body.value "", replyv := Body.value "" }
            err := some "gob: bad body" }],
          Conn.fresh [])).returned = false :=
  (C7_body_failure_is_answered (scriptEnv (fixedDecoder (Except.ok DefaultOption)))
    ([{ req := some { h := { ServiceMethod := "Foo.Sum", Seq := 7, Error := "" }
                      argv := Body.value "", replyv := Body.value "" }
        err := some "gob: bad body" }],
      Conn.fresh [])
    "gob: bad body"
    { h := { ServiceMethod := "Foo.Sum", Seq := 7, Error := "" }
      argv := Body.value "", replyv := Body.value "" }
    rfl rfl).2.1

/-- C8 at a concrete input: the default option on a scripted codec whose stream
has ended; ServeConn returns and the connection has been closed once. -/
theorem C8_connection_closed_once_witness :
    (ServeConn (scriptEnv (fixedDecoder (Except.ok DefaultOption)))
        (NewCodeFuncMap (scriptFactory [])) 2 (Conn.fresh [[1]])).status = Status.returned ∧
    (ServeConn (scriptEnv (fixedDecoder (Except.ok DefaultOption)))
        (NewCodeFuncMap (scriptFactory [])) 2 (Conn.fresh [[1]])).conn.closeCalls = 1 :=
  ⟨by decide,
    ((C8_connection_closed_once (scriptEnv (fixedDecoder (Except.ok DefaultOption)))
      (NewCodeFuncMap (scriptFactory [])) 2 (Conn.fresh [[1]])).2.2.2
      (fun s => by rcases s with ⟨l, c⟩; cases l <;> rfl)
      (fun _ _ _ => rfl)
      (fun t f c h => by
        simp only [NewCodeFuncMap, FuncMap.set, FuncMap.get, List.filter_nil] at h
        split at h
        · cases h; rfl
        · cases h)).1 (by decide)⟩

/-- C9 at a concrete input: two workers, the second of which tries the lock
while the first is inside the write: the lock is held and the second worker is
still waiting. -/
theorem C9_writes_hold_the_lock_witness :
    (Shared.run (scriptEnv (fixedDecoder (Except.ok DefaultOption)))
      (Shared.start (([] : List ReadResult), Conn.fresh [])
        [({ ServiceMethod := "Foo.Sum", Seq := 1, Error := "" }, Body.invalidRequest),
          ({ ServiceMethod := "", Seq := 2, Error := "bad" }, Body.invalidRequest)])
      [0, 0, 1]).sending = true ∧
    (Shared.run (scriptEnv (fixedDecoder (Except.ok DefaultOption)))
      (Shared.start (([] : List ReadResult), Conn.fresh [])
        [({ ServiceMethod := "Foo.Sum", Seq := 1, Error := "" }, Body.invalidRequest),
          ({ ServiceMethod := "", Seq := 2, Error := "bad" }, Body.invalidRequest)])
      [0, 0, 1]).workers.map Worker.phase = [Phase.writing, Phase.waiting] :=
  ⟨((C9_writes_hold_the_lock (scriptEnv (fixedDecoder (Except.ok DefaultOption)))
      (([] : List ReadResult), Conn.fresh [])
      [({ ServiceMethod := "Foo.Sum", Seq := 1, Error := "" }, Body.invalidRequest),
        ({ ServiceMethod := "", Seq := 2, Error := "bad" }, Body.invalidRequest)]
      [0, 0, 1]).2.1 0 0
      { h := { ServiceMethod := "Foo.Sum", Seq := 1, Error := "" }, body := Body.invalidRequest,
        phase := Phase.writing }
      { h := { ServiceMethod := "Foo.Sum", Seq := 1, Error := "" }, body := Body.invalidRequest,
        phase := Phase.writing }
      rfl rfl rfl).1,
    by decide⟩

end Instances

end GeeRPC
